import Mathlib

/-!
Verification development for the gNMI command-line client core
(`src/cmd/root.go`): the typed-value decoder (`getValue`), the path
formatter (`gnmiPathToXPath`), the certificate loaders (`loadCerts`,
`loadCACerts`), the connection factory (`createGrpcConn`) and the
fan-in consumers (`printer` / `gather`), shallowly embedded as
executable Lean definitions.
-/

set_option maxRecDepth 4000
set_option genSizeOfSpec false
set_option genInjectivity false

namespace Gnmic

/-! ## JSON documents and `encoding/json.Unmarshal`

Modelled from the spec: the Go standard library `encoding/json` is an
external collaborator ("the variant's raw byte payload is parsed as a
JSON document into a native value tree; on parse failure, returns
DecodeError wrapping the underlying parse error").  A JSON document is
parsed into an untyped tree; numbers are kept as a mantissa together
with a power-of-ten exponent (Go decodes them into float64; the claims
only involve small integers, for which this representation is exact),
and payload bytes are modelled as the characters of the JSON text. -/

/-- A decoded JSON document: the "native value tree" of the spec. -/
inductive Json where
  | null
  | boolv (b : Bool)
  | num (mantissa : Int) (exp10 : Int)
  | str (s : String)
  | arr (elems : List Json)
  | obj (fields : List (String × Json))

/-- Parse errors of the modelled `json.Unmarshal`: the payload ended
too early, or an unexpected character was met. -/
inductive JsonErr where
  | unexpectedEnd
  | invalidChar (c : Char)

/-- The opening-brace character, kept symbolic. -/
def lbrace : Char := Char.ofNat 123

/-- The closing-brace character, kept symbolic. -/
def rbrace : Char := Char.ofNat 125

def isWsChar (c : Char) : Bool :=
  c = ' ' || c = '\t' || c = '\n' || c = '\r'

/-- Drop leading JSON whitespace. -/
def skipWs : List Char → List Char
  | [] => []
  | c :: rest => if isWsChar c then skipWs rest else c :: rest

/-- Value of a hexadecimal digit, if any. -/
def hexVal (c : Char) : Option Nat :=
  if '0' ≤ c ∧ c ≤ '9' then some (c.toNat - 48)
  else if 'a' ≤ c ∧ c ≤ 'f' then some (c.toNat - 87)
  else if 'A' ≤ c ∧ c ≤ 'F' then some (c.toNat - 55)
  else none

/-- Consume the body of a string literal (the opening quote already
read), handling the standard escapes. -/
def parseStringBody : Nat → List Char → List Char → Except JsonErr (String × List Char)
  | 0, _, _ => .error .unexpectedEnd
  | _ + 1, [], _ => .error .unexpectedEnd
  | fuel + 1, c :: rest, acc =>
    if c = '"' then .ok (String.mk acc.reverse, rest)
    else if c = '\\' then
      match rest with
      | [] => .error .unexpectedEnd
      | e :: rest2 =>
        if e = '"' then parseStringBody fuel rest2 ('"' :: acc)
        else if e = '\\' then parseStringBody fuel rest2 ('\\' :: acc)
        else if e = '/' then parseStringBody fuel rest2 ('/' :: acc)
        else if e = 'n' then parseStringBody fuel rest2 ('\n' :: acc)
        else if e = 't' then parseStringBody fuel rest2 ('\t' :: acc)
        else if e = 'r' then parseStringBody fuel rest2 ('\r' :: acc)
        else if e = 'b' then parseStringBody fuel rest2 (Char.ofNat 8 :: acc)
        else if e = 'f' then parseStringBody fuel rest2 (Char.ofNat 12 :: acc)
        else if e = 'u' then
          match rest2 with
          | h1 :: h2 :: h3 :: h4 :: rest3 =>
            match hexVal h1, hexVal h2, hexVal h3, hexVal h4 with
            | some a, some b, some c3, some d =>
              parseStringBody fuel rest3 (Char.ofNat (((a * 16 + b) * 16 + c3) * 16 + d) :: acc)
            | _, _, _, _ => .error (.invalidChar e)
          | _ => .error .unexpectedEnd
        else .error (.invalidChar e)
    else parseStringBody fuel rest (c :: acc)

/-- Leading decimal digits of the input, with the rest. -/
def takeDigits : List Char → List Nat × List Char
  | [] => ([], [])
  | c :: rest =>
    if '0' ≤ c ∧ c ≤ '9' then
      let (ds, r) := takeDigits rest
      ((c.toNat - 48) :: ds, r)
    else ([], c :: rest)

def natOfDigits (ds : List Nat) : Nat :=
  ds.foldl (fun a d => a * 10 + d) 0

/-- Parse a JSON number token into mantissa and power-of-ten
exponent: `1` gives `(1, 0)`, `1.5` gives `(15, -1)`, `2e3` gives
`(2, 3)`. -/
def parseNumber (cs : List Char) : Except JsonErr (Json × List Char) :=
  let (neg, cs1) :=
    match cs with
    | '-' :: rest => (true, rest)
    | _ => (false, cs)
  let (intDs, cs2) := takeDigits cs1
  if intDs = [] then
    match cs1 with
    | [] => .error .unexpectedEnd
    | c :: _ => .error (.invalidChar c)
  else
    let (fracDs, cs3) :=
      match cs2 with
      | '.' :: rest => takeDigits rest
      | _ => ([], cs2)
    if cs2 ≠ cs3 ∧ fracDs = [] then
      .error .unexpectedEnd
    else
      let (expv, cs4) : Option Int × List Char :=
        match cs3 with
        | 'e' :: rest | 'E' :: rest =>
          let (esign, rest1) :=
            match rest with
            | '-' :: r => (true, r)
            | '+' :: r => (false, r)
            | _ => (false, rest)
          let (eds, rest2) := takeDigits rest1
          if eds = [] then (none, cs3)
          else (some (if esign then -(natOfDigits eds : Int) else (natOfDigits eds : Int)), rest2)
        | _ => (some 0, cs3)
      match expv with
      | none => .error .unexpectedEnd
      | some e =>
        let mant : Int := natOfDigits (intDs ++ fracDs)
        let mant := if neg then -mant else mant
        .ok (.num mant (e - fracDs.length), cs4)

/-- Check that `lit` is a leading sequence of the input. -/
def expectLit : List Char → List Char → Except JsonErr (List Char)
  | [], cs => .ok cs
  | _ :: _, [] => .error .unexpectedEnd
  | l :: ls, c :: cs => if c = l then expectLit ls cs else .error (.invalidChar c)

mutual

/-- Parse one JSON value from the front of the input. -/
def parseVal : Nat → List Char → Except JsonErr (Json × List Char)
  | 0, _ => .error .unexpectedEnd
  | fuel + 1, cs =>
    match skipWs cs with
    | [] => .error .unexpectedEnd
    | c :: rest =>
      if c = 'n' then
        match expectLit ['u', 'l', 'l'] rest with
        | .error e => .error e
        | .ok rest2 => .ok (.null, rest2)
      else if c = 't' then
        match expectLit ['r', 'u', 'e'] rest with
        | .error e => .error e
        | .ok rest2 => .ok (.boolv true, rest2)
      else if c = 'f' then
        match expectLit ['a', 'l', 's', 'e'] rest with
        | .error e => .error e
        | .ok rest2 => .ok (.boolv false, rest2)
      else if c = '"' then
        match parseStringBody (rest.length + 1) rest [] with
        | .error e => .error e
        | .ok (s, rest2) => .ok (.str s, rest2)
      else if c = '[' then
        match skipWs rest with
        | ']' :: rest2 => .ok (.arr [], rest2)
        | rest2 => parseArrItems fuel rest2 []
      else if c = lbrace then
        match skipWs rest with
        | c2 :: rest2 =>
          if c2 = rbrace then .ok (.obj [], rest2)
          else parseObjItems fuel (c2 :: rest2) []
        | [] => .error .unexpectedEnd
      else parseNumber (c :: rest)

/-- Parse the items of a non-empty array, the opening bracket already
consumed. -/
def parseArrItems : Nat → List Char → List Json → Except JsonErr (Json × List Char)
  | 0, _, _ => .error .unexpectedEnd
  | fuel + 1, cs, acc =>
    match parseVal fuel cs with
    | .error e => .error e
    | .ok (v, rest) =>
      match skipWs rest with
      | [] => .error .unexpectedEnd
      | c :: rest2 =>
        if c = ',' then parseArrItems fuel rest2 (v :: acc)
        else if c = ']' then .ok (.arr (v :: acc).reverse, rest2)
        else .error (.invalidChar c)

/-- Parse the fields of a non-empty object, the opening brace already
consumed. -/
def parseObjItems : Nat → List Char → List (String × Json) → Except JsonErr (Json × List Char)
  | 0, _, _ => .error .unexpectedEnd
  | fuel + 1, cs, acc =>
    match skipWs cs with
    | [] => .error .unexpectedEnd
    | c :: rest =>
      if c = '"' then
        match parseStringBody (rest.length + 1) rest [] with
        | .error e => .error e
        | .ok (k, rest2) =>
          match skipWs rest2 with
          | ':' :: rest3 =>
            match parseVal fuel rest3 with
            | .error e => .error e
            | .ok (v, rest4) =>
              match skipWs rest4 with
              | [] => .error .unexpectedEnd
              | c2 :: rest5 =>
                if c2 = ',' then parseObjItems fuel rest5 ((k, v) :: acc)
                else if c2 = rbrace then .ok (.obj ((k, v) :: acc).reverse, rest5)
                else .error (.invalidChar c2)
          | c2 :: _ => .error (.invalidChar c2)
          | [] => .error .unexpectedEnd
      else .error (.invalidChar c)

end

/-- Modelled from the spec: `encoding/json.Unmarshal` of a whole
payload into an untyped value — parse one document, allow surrounding
whitespace, reject trailing input; the empty payload fails with the
unexpected-end error. -/
def jsonUnmarshal (cs : List Char) : Except JsonErr Json :=
  match parseVal (cs.length + 1) cs with
  | .error e => .error e
  | .ok (j, rest) =>
    match skipWs rest with
    | [] => .ok j
    | c :: _ => .error (.invalidChar c)

/-! ## The typed-value union and the decoder `getValue`

Embeds `getValue` from `src/cmd/root.go` (lines 287-325).  The wire
message `gnmi.TypedValue` is a tagged union; `TypedValue.empty` is the
message whose `Value` field is nil (no variant populated).  The JSON
variants carry their `[]byte` payload as the characters of the JSON
text. -/

/-- Structure `gnmi.Decimal64`: digits and a decimal precision. -/
structure Decimal64 where
  digits : Int
  precision : Nat

/-- Message `google.protobuf.Any`: a type URL and serialized bytes. -/
structure AnyMsg where
  typeUrl : String
  value : List Nat

/-- Union `gnmi.TypedValue`: each constructor is one populated variant of
the wire union; `empty` is the message with no variant populated.  A
leaf-list payload (`gnmi.ScalarArray`) is its list of elements. -/
inductive TypedValue where
  | asciiVal (s : String)
  | boolVal (b : Bool)
  | bytesVal (bs : List Nat)
  | decimalVal (d : Decimal64)
  | floatVal (bits : Nat)
  | intVal (i : Int)
  | stringVal (s : String)
  | uintVal (u : Nat)
  | jsonIetfVal (bs : List Char)
  | jsonVal (bs : List Char)
  | leaflistVal (elems : List TypedValue)
  | protoBytes (bs : List Nat)
  | anyVal (a : AnyMsg)
  | empty

/-- A native Go value held in the decoder's `interface` result.  In Go
an interface that was assigned any variant payload — even a zero one —
is non-nil, so every non-JSON variant produces a `GoValue`; only a
decoded JSON document can put the untyped nil into the result, which
the embedding renders as `Option.none` at the use site. -/
inductive GoValue where
  | str (s : String)
  | boolv (b : Bool)
  | bytes (bs : List Nat)
  | decimal (d : Decimal64)
  | float32 (bits : Nat)
  | int64 (i : Int)
  | uint64 (u : Nat)
  | leaflist (elems : List TypedValue)
  | protoBytesV (bs : List Nat)
  | anyv (a : AnyMsg)
  | json (j : Json)

/-- How a decoded JSON document lands in the Go `interface` variable:
the document `null` leaves the variable nil (`none`), anything else is
a non-nil native tree. -/
def goOfJson : Json → Option GoValue
  | .null => none
  | j => some (.json j)

/-- Function `getValue` (root.go 287-325): type-switch on the populated variant;
non-JSON payloads pass through; JSON payloads are remembered in
`jsondata`; afterwards, if the `value` interface is still nil, the
JSON payload (nil when no variant was populated) is unmarshalled. -/
def getValue (updValue : TypedValue) : Except JsonErr (Option GoValue) :=
  let value : Option GoValue :=
    match updValue with
    | .asciiVal s => some (.str s)
    | .boolVal b => some (.boolv b)
    | .bytesVal bs => some (.bytes bs)
    | .decimalVal d => some (.decimal d)
    | .floatVal bits => some (.float32 bits)
    | .intVal i => some (.int64 i)
    | .stringVal s => some (.str s)
    | .uintVal u => some (.uint64 u)
    | .jsonIetfVal _ => none
    | .jsonVal _ => none
    | .leaflistVal elems => some (.leaflist elems)
    | .protoBytes bs => some (.protoBytesV bs)
    | .anyVal a => some (.anyv a)
    | .empty => none
  let jsondata : List Char :=
    match updValue with
    | .jsonIetfVal bs => bs
    | .jsonVal bs => bs
    | _ => []
  match value with
  | some v => .ok (some v)
  | none =>
    match jsonUnmarshal jsondata with
    | .error e => .error e
    | .ok j => .ok (goOfJson j)

/-! ## The path formatter `gnmiPathToXPath`

Embeds `gnmiPathToXPath` from `src/cmd/root.go` (lines 219-237).  The
key map of a `gnmi.PathElem` is modelled as an association list in the
map's iteration order (Go map iteration order is unspecified; a nil
map and an empty map render identically, so the source's nil guard
around the key loop is dropped without change of meaning). -/

/-- Element `gnmi.PathElem`: a name and the key map in iteration order. -/
structure PathElem where
  name : String
  key : List (String × String)

/-- Message `gnmi.Path`, restricted to the `Elem` field the formatter reads. -/
structure GnmiPath where
  elem : List PathElem

/-- One element's rendering: start from the empty string, append the
name when non-empty, then append one bracketed key=value pair per map
entry, as in the loop body of root.go 224-234. -/
def pathElemString (pe : PathElem) : String :=
  let elem := ""
  let elem := if pe.name ≠ "" then elem ++ pe.name else elem
  pe.key.foldl (fun acc kv => acc ++ "[" ++ kv.1 ++ "=" ++ kv.2 ++ "]") elem

/-- Function `gnmiPathToXPath` (root.go 219-237): nil path renders empty,
otherwise the rendered elements are joined with a slash. -/
def gnmiPathToXPath (p : Option GnmiPath) : String :=
  match p with
  | none => ""
  | some path => String.intercalate "/" (path.elem.map pathElemString)

/-- Concatenation of one bracketed key=value substring per entry. -/
def bracketConcat : List (String × String) → String
  | [] => ""
  | kv :: rest => ("[" ++ kv.1 ++ "=" ++ kv.2 ++ "]") ++ bracketConcat rest

/-- Follows the wording of the spec (§4.3): each element is its name
immediately followed by one bracketed key=value substring per entry of
its key map; elements are joined with a slash; a null path yields the
empty string. -/
def formatSpecElem (pe : PathElem) : String :=
  pe.name ++ bracketConcat pe.key

/-- The spec-side formatter, for comparison with `gnmiPathToXPath`. -/
def formatSpec (p : Option GnmiPath) : String :=
  match p with
  | none => ""
  | some path => String.intercalate "/" (path.elem.map formatSpecElem)

/-! ## Durations, certificate material and the connection factory

Embeds `loadCerts` (root.go 238-250), `loadCACerts` (root.go 251-265)
and `createGrpcConn` (root.go 179-218).  The filesystem is a map from
paths to file data; the PEM structure of a file is modelled at the
granularity the loaders observe (a list of entries, each a valid
certificate, a valid private key, or junk).  The viper configuration
the source reads globally is passed as an explicit `Config` value. -/

/-- Modelled from the spec: Go `time.ParseDuration` nanosecond scale
of a unit token (fractional values are not modelled; the claims only
concern whether a string parses at all). -/
def unitScale (u : String) : Option Int :=
  if u = "ns" then some 1
  else if u = "us" then some 1000
  else if u = "ms" then some 1000000
  else if u = "s" then some 1000000000
  else if u = "m" then some 60000000000
  else if u = "h" then some 3600000000000
  else none

/-- Leading lower-case letters of the input, with the rest. -/
def takeLetters : List Char → List Char × List Char
  | [] => ([], [])
  | c :: rest =>
    if 'a' ≤ c ∧ c ≤ 'z' then
      let (ls, r) := takeLetters rest
      (c :: ls, r)
    else ([], c :: rest)

/-- One or more number-unit groups, accumulated in nanoseconds. -/
def parseDurationGroups : Nat → List Char → Int → Option Int
  | _, [], acc => some acc
  | 0, _ :: _, _ => none
  | fuel + 1, cs, acc =>
    let (ds, rest) := takeDigits cs
    if ds = [] then none
    else
      let (us, rest2) := takeLetters rest
      match unitScale (String.mk us) with
      | none => none
      | some sc => parseDurationGroups fuel rest2 (acc + (natOfDigits ds : Int) * sc)

/-- Modelled from the spec: Go `time.ParseDuration` — an optional
sign, then either the bare string 0 or a non-empty sequence of
number-unit groups; anything else is a parse error ("malformed
duration strings fail fast"). -/
def parseDuration (s : String) : Option Int :=
  match s.toList with
  | [] => none
  | cs =>
    let (neg, cs1) :=
      match cs with
      | '-' :: rest => (true, rest)
      | '+' :: rest => (false, rest)
      | _ => (false, cs)
    if cs1 = ['0'] then some 0
    else
      match parseDurationGroups (cs1.length + 1) cs1 0 with
      | none => none
      | some v => some (if neg then -v else v)

/-- One entry of a PEM file as the loaders observe it. -/
inductive PemEntry where
  | cert (id : Nat)
  | key (id : Nat)
  | junk

/-- A file on disk: its PEM entries. -/
structure FileData where
  entries : List PemEntry

/-- The filesystem: which path holds which file. -/
def FS := String → Option FileData

/-- The valid certificates of a file, in order. -/
def pemCerts (f : FileData) : List Nat :=
  f.entries.filterMap (fun e =>
    match e with
    | .cert i => some i
    | _ => none)

/-- The first valid private key of a file. -/
def firstKey (f : FileData) : Option Nat :=
  f.entries.findSome? (fun e =>
    match e with
    | .key i => some i
    | _ => none)

/-- A `tls.Certificate`; the zero value carries no key pair. -/
structure Certificate where
  keyPairId : Option Nat := none

/-- Errors of the certificate loaders. -/
inductive LoadErr where
  | readFile (path : String)
  | keyPairMismatch
  | appendCerts

/-- Modelled from the spec: `tls.LoadX509KeyPair` — read both files,
fail if either is unreadable or the certificate and key do not form a
matching pair. -/
def loadX509KeyPair (fs : FS) (certFile keyFile : String) : Except LoadErr Certificate :=
  match fs certFile with
  | none => .error (.readFile certFile)
  | some cf =>
    match fs keyFile with
    | none => .error (.readFile keyFile)
    | some kf =>
      match (pemCerts cf).head?, firstKey kf with
      | some c, some k => if c = k then .ok ⟨some c⟩ else .error .keyPairMismatch
      | _, _ => .error .keyPairMismatch

/-- Function `loadCerts` (root.go 238-250): only when both the certificate path
and the key path are non-empty is the pair loaded; otherwise the
zero-value certificate stands in, and in every non-error case a
one-element list is returned. -/
def loadCerts (tlsCert tlsKey : String) (fs : FS) : Except LoadErr (List Certificate) :=
  if tlsCert ≠ "" ∧ tlsKey ≠ "" then
    match loadX509KeyPair fs tlsCert tlsKey with
    | .error e => .error e
    | .ok c => .ok [c]
  else .ok [{ keyPairId := none }]

/-- An `x509.CertPool`: the set of trusted certificates. -/
structure CertPool where
  certs : List Nat := []

/-- Modelled from the spec: `x509.CertPool.AppendCertsFromPEM` —
append every valid PEM certificate of the data and report whether at
least one was found. -/
def appendCertsFromPEM (pool : CertPool) (f : FileData) : CertPool × Bool :=
  ({ certs := pool.certs ++ pemCerts f }, !(pemCerts f).isEmpty)

/-- Function `loadCACerts` (root.go 251-265): an empty CA path yields the fresh
empty pool; otherwise the file is read (unreadable fails), its PEM
certificates are appended, and an append reporting no certificate
fails with the failed-to-append error. -/
def loadCACerts (tlsCa : String) (fs : FS) : Except LoadErr CertPool :=
  let certPool : CertPool := {}
  if tlsCa ≠ "" then
    match fs tlsCa with
    | none => .error (.readFile tlsCa)
    | some caFile =>
      let (pool, ok) := appendCertsFromPEM certPool caFile
      if ok then .ok pool else .error .appendCerts
  else .ok certPool

/-- The `tls.Config` built on the secured branch of the factory. -/
structure TLSConfig where
  renegotiationNever : Bool
  insecureSkipVerify : Bool
  certificates : List Certificate
  rootCAs : Option CertPool

/-- The gRPC dial options accumulated by `createGrpcConn`. -/
inductive DialOption where
  | withTimeout (nanos : Int)
  | withBlock
  | maxCallRecvMsgSize (n : Int)
  | withNoProxy
  | withInsecure
  | withTransportCredentials (tc : TLSConfig)

/-- Observable side effects of one `createGrpcConn` run: invoking the
client certificate loader, invoking the CA loader, and dialing. -/
inductive Event where
  | loadCertsCall
  | loadCACertsCall
  | dial (address : String)

/-- Errors of the connection factory: the ConfigError of a malformed
timeout, or the ConnectError of a failed dial. -/
inductive ConnErr where
  | configError
  | connectError (address : String)

/-- An established channel: the dialed address and its options. -/
structure Conn where
  addr : String
  opts : List DialOption

/-- The network: which addresses accept a blocking dial. -/
def Net := String → Option Nat

/-- The per-invocation configuration the source reads through viper. -/
structure Config where
  timeout : String
  maxMsgSize : Int
  proxyFromEnv : Bool
  insecure : Bool
  skipVerify : Bool
  tlsCert : String
  tlsKey : String
  tlsCa : String

/-- Function `createGrpcConn` (root.go 179-218): parse the timeout (malformed
fails before anything else), accumulate dial options, then either dial
without transport security (`insecure`) or build the TLS
configuration — loader errors are only logged, leaving nil
certificates or a nil root pool — and dial with it.  The second
component lists the side effects in order. -/
def createGrpcConn (cfg : Config) (fs : FS) (net : Net) (address : String) :
    Except ConnErr Conn × List Event :=
  match parseDuration cfg.timeout with
  | none => (.error .configError, [])
  | some t =>
    let opts : List DialOption := [.withTimeout t, .withBlock]
    let opts := if cfg.maxMsgSize > 0 then opts ++ [.maxCallRecvMsgSize cfg.maxMsgSize] else opts
    let opts := if ¬cfg.proxyFromEnv then opts ++ [.withNoProxy] else opts
    if cfg.insecure then
      let opts := opts ++ [.withInsecure]
      match net address with
      | none => (.error (.connectError address), [.dial address])
      | some _ => (.ok ⟨address, opts⟩, [.dial address])
    else
      let certificates : List Certificate :=
        match loadCerts cfg.tlsCert cfg.tlsKey fs with
        | .ok cs => cs
        | .error _ => []
      let certPool : Option CertPool :=
        match loadCACerts cfg.tlsCa fs with
        | .ok p => some p
        | .error _ => none
      let tc : TLSConfig :=
        { renegotiationNever := true
          insecureSkipVerify := cfg.skipVerify
          certificates := certificates
          rootCAs := certPool }
      let opts := opts ++ [.withTransportCredentials tc]
      match net address with
      | none => (.error (.connectError address), [.loadCertsCall, .loadCACertsCall, .dial address])
      | some _ => (.ok ⟨address, opts⟩, [.loadCertsCall, .loadCACertsCall, .dial address])

/-! ## The fan-in consumers `printer` and `gather`

Embeds the consumer loops of root.go 266-285 as a labelled transition
system.  `printer` and `gather` have the same select loop — receive a
message from the channel and emit it (print it, respectively append it
to the slice), or observe the cancelled context and return — so one
state machine covers both, with `output` standing for the printed
lines respectively the gathered slice.  The channel is the buffered
conduit of the spec (§3), held as a FIFO queue; Go's `select` chooses
freely when both the receive and the done case are ready, which the
relation renders as nondeterminism between `recv` and `stop`. -/

/-- State of one aggregator run: the channel contents, whether the
cancellation signal has been latched, what the consumer has emitted,
and whether the consumer loop has returned. -/
structure AggState where
  queue : List String
  cancelled : Bool
  output : List String
  stopped : Bool

/-- The initial aggregator state: empty channel, not cancelled,
nothing emitted, consumer running. -/
def aggInit : AggState := ⟨[], false, [], false⟩

/-- One step of the system: a producer enqueues; the context is
cancelled; the consumer's select takes a queued message and emits it
(only while the loop runs); or the select takes the done case and the
loop returns (only once cancellation is latched). -/
inductive AggStep : AggState → AggState → Prop where
  | enqueue (s : AggState) (m : String) :
      AggStep s { s with queue := s.queue ++ [m] }
  | cancel (s : AggState) :
      AggStep s { s with cancelled := true }
  | recv (s : AggState) (m : String) (rest : List String)
      (hq : s.queue = m :: rest) (hs : s.stopped = false) :
      AggStep s { s with queue := rest, output := s.output ++ [m] }
  | stop (s : AggState) (hc : s.cancelled = true) (hs : s.stopped = false) :
      AggStep s { s with stopped := true }

/-- Zero or more steps. -/
inductive AggReach : AggState → AggState → Prop where
  | refl (s : AggState) : AggReach s s
  | tail (s t u : AggState) (h1 : AggReach s t) (h2 : AggStep t u) : AggReach s u

/-- The drain guarantee the spec claims of the select loop: whenever a
state `s` is reached with cancellation not yet latched (so everything
then queued was enqueued before the signal), every message queued at
`s` has been emitted by the time the consumer has stopped. -/
def aggNoDrop : Prop :=
  ∀ s t : AggState, AggReach aggInit s → s.cancelled = false →
    AggReach s t → t.stopped = true → ∀ m, m ∈ s.queue → m ∈ t.output

/-- The state after one producer enqueued the message a. -/
def aggQueued : AggState := ⟨["a"], false, [], false⟩

/-- State `aggQueued` after cancellation latched. -/
def aggCancelled : AggState := ⟨["a"], true, [], false⟩

/-- State `aggCancelled` after the consumer selected the done case. -/
def aggDropped : AggState := ⟨["a"], true, [], true⟩

lemma aggReach_queued : AggReach aggInit aggQueued := by
  have h := AggStep.enqueue aggInit "a"
  exact AggReach.tail _ _ _ (AggReach.refl _) h

lemma aggReach_dropped_from_queued : AggReach aggQueued aggDropped := by
  have h1 := AggStep.cancel aggQueued
  have h2 : AggStep aggCancelled aggDropped := AggStep.stop aggCancelled rfl rfl
  exact AggReach.tail _ _ _ (AggReach.tail _ _ _ (AggReach.refl _) h1) h2

lemma aggReach_trans (s t u : AggState) (h1 : AggReach s t) (h2 : AggReach t u) :
    AggReach s u := by
  induction h2 with
  | refl => exact h1
  | tail _ _ _ hstep ih => exact AggReach.tail _ _ _ ih hstep

lemma aggReach_dropped : AggReach aggInit aggDropped :=
  aggReach_trans _ _ _ aggReach_queued aggReach_dropped_from_queued

/-! ## Helper lemmas -/

lemma getValue_jsonVal_eq (bs : List Char) :
    getValue (.jsonVal bs) =
      match jsonUnmarshal bs with
      | .error e => .error e
      | .ok j => .ok (goOfJson j) := rfl

lemma getValue_jsonIetfVal_eq (bs : List Char) :
    getValue (.jsonIetfVal bs) =
      match jsonUnmarshal bs with
      | .error e => .error e
      | .ok j => .ok (goOfJson j) := rfl

lemma foldl_bracket (l : List (String × String)) (init : String) :
    List.foldl (fun acc kv => acc ++ "[" ++ kv.1 ++ "=" ++ kv.2 ++ "]") init l
      = init ++ bracketConcat l := by
  induction l generalizing init with
  | nil => simp [bracketConcat]
  | cons kv rest ih =>
    rw [List.foldl_cons, ih]
    simp [bracketConcat, String.append_assoc]

lemma pathElemString_eq_spec (pe : PathElem) : pathElemString pe = formatSpecElem pe := by
  unfold pathElemString formatSpecElem
  rw [foldl_bracket]
  by_cases h : pe.name = ""
  · simp [h]
  · simp [h]

lemma agg_stopped_cancelled (s : AggState) (h : AggReach aggInit s) :
    s.stopped = true → s.cancelled = true := by
  induction h with
  | refl => intro hs; simp [aggInit] at hs
  | tail t u hr hstep ih =>
    intro hs
    cases hstep with
    | enqueue m => exact ih hs
    | cancel => rfl
    | recv m rest hq hs2 => exact ih hs
    | stop hc hs2 => exact hc

lemma agg_stopped_frozen (s t : AggState) (hs : s.stopped = true) (hstep : AggStep s t) :
    t.output = s.output ∧ t.stopped = true := by
  cases hstep with
  | enqueue m => exact ⟨rfl, hs⟩
  | cancel => exact ⟨rfl, hs⟩
  | recv m rest hq hs2 => simp [hs] at hs2
  | stop hc hs2 => simp [hs] at hs2

/-- The drain guarantee does not hold of the select loop: the run
enqueue-cancel-stop reaches a stopped state with the pre-cancellation
message still queued and nothing emitted. -/
lemma aggNoDrop_refuted : ¬aggNoDrop := by
  intro h
  have := h aggQueued aggDropped aggReach_queued rfl aggReach_dropped_from_queued rfl "a"
    (by simp [aggQueued])
  simp [aggDropped] at this

/-! ## Concrete fixtures for witnesses -/

/-- A filesystem with one CA bundle holding a valid certificate and
one junk-only bundle. -/
def fsCa : FS := fun p =>
  if p = "ca.pem" then some ⟨[PemEntry.cert 7, PemEntry.junk]⟩
  else if p = "empty.pem" then some ⟨[PemEntry.junk]⟩
  else none

/-- The empty filesystem. -/
def fsEmpty : FS := fun _ => none

/-- A network accepting no dial. -/
def netNone : Net := fun _ => none

/-- A configuration whose timeout string does not parse. -/
def cfgBadTimeout : Config :=
  { timeout := "soon", maxMsgSize := 512, proxyFromEnv := false, insecure := false
    skipVerify := false, tlsCert := "", tlsKey := "", tlsCa := "" }

/-- An insecure configuration that nevertheless names certificate
files. -/
def cfgInsecure : Config :=
  { timeout := "30s", maxMsgSize := 512, proxyFromEnv := false, insecure := true
    skipVerify := false, tlsCert := "cert.pem", tlsKey := "key.pem", tlsCa := "ca.pem" }

/-! ## The claims -/

/-- C1 (counterexample): on the TypedValue with no variant populated
the decoder does not succeed — the result is not ok. -/
theorem c1_counterexample : (getValue TypedValue.empty).isOk = false := rfl

/-- C1 (amended): for the TypedValue in which no variant is populated,
decode falls through to the JSON branch with the empty payload and
returns a DecodeError wrapping the unexpected-end parse error of the
empty input — not the nil sentinel. -/
theorem c1_empty_value :
    getValue TypedValue.empty = Except.error JsonErr.unexpectedEnd ∧
    jsonUnmarshal [] = Except.error JsonErr.unexpectedEnd :=
  ⟨rfl, rfl⟩

/-- C2: the source formatter agrees with the spec's algorithm — each
element rendered as its name immediately followed by one bracketed
key=value substring per key-map entry, elements joined with a slash,
the nil path rendered empty — and the spec's three examples hold. -/
theorem c2_path_format :
    (∀ p, gnmiPathToXPath p = formatSpec p) ∧
    gnmiPathToXPath (some ⟨[⟨"a", []⟩, ⟨"b", [("k", "v")]⟩]⟩) = "a/b[k=v]" ∧
    gnmiPathToXPath none = "" ∧
    gnmiPathToXPath (some ⟨[⟨"", []⟩]⟩) = "" := by
  refine ⟨fun p => ?_, by decide, rfl, by decide⟩
  cases p with
  | none => rfl
  | some path =>
    have hfe : pathElemString = formatSpecElem := funext pathElemString_eq_spec
    simp [gnmiPathToXPath, formatSpec, hfe]

/-- C3: every non-JSON variant's payload passes through the decoder
unchanged with no error; in particular the int variant holding 42
decodes to the native integer 42. -/
theorem c3_passthrough :
    (∀ s, getValue (.asciiVal s) = .ok (some (.str s))) ∧
    (∀ b, getValue (.boolVal b) = .ok (some (.boolv b))) ∧
    (∀ bs, getValue (.bytesVal bs) = .ok (some (.bytes bs))) ∧
    (∀ d, getValue (.decimalVal d) = .ok (some (.decimal d))) ∧
    (∀ bits, getValue (.floatVal bits) = .ok (some (.float32 bits))) ∧
    (∀ i, getValue (.intVal i) = .ok (some (.int64 i))) ∧
    (∀ s, getValue (.stringVal s) = .ok (some (.str s))) ∧
    (∀ u, getValue (.uintVal u) = .ok (some (.uint64 u))) ∧
    (∀ elems, getValue (.leaflistVal elems) = .ok (some (.leaflist elems))) ∧
    (∀ bs, getValue (.protoBytes bs) = .ok (some (.protoBytesV bs))) ∧
    (∀ a, getValue (.anyVal a) = .ok (some (.anyv a))) ∧
    getValue (.intVal 42) = .ok (some (.int64 42)) :=
  ⟨fun _ => rfl, fun _ => rfl, fun _ => rfl, fun _ => rfl, fun _ => rfl, fun _ => rfl,
   fun _ => rfl, fun _ => rfl, fun _ => rfl, fun _ => rfl, fun _ => rfl, rfl⟩

/-- C4: a JSON or JSON-IETF variant is decoded by parsing its payload
as a JSON document — on success the native tree is returned, on parse
failure a DecodeError wrapping the parse error — and the payload with
the field x mapped to 1 yields that mapping while an invalid payload
yields an error. -/
theorem c4_json_decode :
    (∀ bs j, jsonUnmarshal bs = .ok j →
      getValue (.jsonVal bs) = .ok (goOfJson j) ∧
      getValue (.jsonIetfVal bs) = .ok (goOfJson j)) ∧
    (∀ bs e, jsonUnmarshal bs = .error e →
      getValue (.jsonVal bs) = .error e ∧
      getValue (.jsonIetfVal bs) = .error e) ∧
    getValue (.jsonVal ("\x7b\"x\":1\x7d".toList))
      = .ok (some (.json (.obj [("x", .num 1 0)]))) ∧
    getValue (.jsonVal ("not json".toList)) = .error (.invalidChar 'o') := by
  refine ⟨fun bs j h => ?_, fun bs e h => ?_, rfl, rfl⟩
  · rw [getValue_jsonVal_eq, getValue_jsonIetfVal_eq, h]
    constructor <;> trivial
  · rw [getValue_jsonVal_eq, getValue_jsonIetfVal_eq, h]
    constructor <;> trivial

/-- C4 (witness): the general clauses applied at the payloads null and
a lone opening brace. -/
theorem c4_witness :
    getValue (.jsonVal ("null".toList)) = Except.ok (goOfJson Json.null) ∧
    getValue (.jsonIetfVal ("\x7b".toList)) = Except.error JsonErr.unexpectedEnd :=
  ⟨(c4_json_decode.1 ("null".toList) Json.null rfl).1,
   (c4_json_decode.2.1 ("\x7b".toList) JsonErr.unexpectedEnd rfl).2⟩

/-- C5: a timeout string that does not parse makes the connection
factory fail with the ConfigError at once: no side effect — neither a
certificate load nor a dial — is recorded. -/
theorem c5_bad_timeout (cfg : Config) (fs : FS) (net : Net) (address : String)
    (h : parseDuration cfg.timeout = none) :
    createGrpcConn cfg fs net address = (Except.error ConnErr.configError, []) := by
  unfold createGrpcConn
  rw [h]

/-- C5 (witness): the factory applied to the unparseable timeout
string soon. -/
theorem c5_witness :
    createGrpcConn cfgBadTimeout fsEmpty netNone "target:57400"
      = (Except.error ConnErr.configError, []) :=
  c5_bad_timeout cfgBadTimeout fsEmpty netNone "target:57400" (by decide)

/-- C6: with insecure set, the factory records no certificate-loader
invocation — its side effects are at most the dial — and its result
does not depend on the filesystem at all. -/
theorem c6_insecure_no_certs (cfg : Config) (fs : FS) (net : Net) (address : String)
    (h : cfg.insecure = true) :
    ((createGrpcConn cfg fs net address).2 = [] ∨
     (createGrpcConn cfg fs net address).2 = [Event.dial address]) ∧
    ∀ fs2 : FS, createGrpcConn cfg fs net address = createGrpcConn cfg fs2 net address := by
  unfold createGrpcConn
  cases hp : parseDuration cfg.timeout with
  | none => exact ⟨Or.inl rfl, fun _ => rfl⟩
  | some t =>
    rw [h]
    simp only [if_true]
    cases hn : net address with
    | none => exact ⟨Or.inr rfl, by intro fs2; trivial⟩
    | some c => exact ⟨Or.inr rfl, by intro fs2; trivial⟩

/-- C6 (witness): the insecure configuration naming certificate files,
on the empty filesystem. -/
theorem c6_witness :
    (createGrpcConn cfgInsecure fsEmpty netNone "t:1").2 = [] ∨
    (createGrpcConn cfgInsecure fsEmpty netNone "t:1").2 = [Event.dial "t:1"] :=
  (c6_insecure_no_certs cfgInsecure fsEmpty netNone "t:1" rfl).1

/-- C7: the CA loader returns the empty trust pool for the empty path;
for a non-empty path it fails with a LoadError exactly when the file
cannot be read or holds no valid certificate, and otherwise returns
the pool of the file's PEM certificates. -/
theorem c7_ca_loader (tlsCa : String) (fs : FS) :
    (tlsCa = "" → loadCACerts tlsCa fs = .ok { certs := [] }) ∧
    (tlsCa ≠ "" → fs tlsCa = none → loadCACerts tlsCa fs = .error (.readFile tlsCa)) ∧
    (∀ f, tlsCa ≠ "" → fs tlsCa = some f → pemCerts f = [] →
      loadCACerts tlsCa fs = .error .appendCerts) ∧
    (∀ f, tlsCa ≠ "" → fs tlsCa = some f → pemCerts f ≠ [] →
      loadCACerts tlsCa fs = .ok { certs := pemCerts f }) := by
  refine ⟨fun h0 => ?_, fun h0 h1 => ?_, fun f h0 h1 h2 => ?_, fun f h0 h1 h2 => ?_⟩
  · simp [loadCACerts, h0]
  · simp [loadCACerts, h0, h1]
  · simp [loadCACerts, appendCertsFromPEM, h0, h1, h2]
  · simp [loadCACerts, appendCertsFromPEM, h0, h1, h2]

/-- C7 (witness): the loader on the empty path, a missing file, a
junk-only bundle and a one-certificate bundle. -/
theorem c7_witness :
    loadCACerts "" fsCa = Except.ok { certs := [] } ∧
    loadCACerts "missing.pem" fsCa = Except.error (LoadErr.readFile "missing.pem") ∧
    loadCACerts "empty.pem" fsCa = Except.error LoadErr.appendCerts ∧
    loadCACerts "ca.pem" fsCa = Except.ok { certs := [7] } :=
  ⟨(c7_ca_loader "" fsCa).1 rfl,
   (c7_ca_loader "missing.pem" fsCa).2.1 (by decide) rfl,
   (c7_ca_loader "empty.pem" fsCa).2.2.1 ⟨[PemEntry.junk]⟩ (by decide) rfl rfl,
   (c7_ca_loader "ca.pem" fsCa).2.2.2 ⟨[PemEntry.cert 7, PemEntry.junk]⟩ (by decide) rfl
     (by decide)⟩

/-- C8 (counterexample): a run of the select loop enqueues a message
before cancellation is latched, yet reaches the stopped state with the
message still queued and nothing emitted — the enqueued item is
dropped mid-drain. -/
theorem c8_counterexample :
    AggReach aggInit aggQueued ∧ aggQueued.cancelled = false ∧
    AggReach aggQueued aggDropped ∧ aggDropped.stopped = true ∧
    aggQueued.queue = ["a"] ∧ aggDropped.output = [] :=
  ⟨aggReach_queued, rfl, aggReach_dropped_from_queued, rfl, rfl, rfl⟩

/-- C8 (amended): the consumer stops only after the cancellation
signal is latched, and from a stopped state no step emits anything
further or restarts the consumer; an item enqueued before cancellation
may however be left unprocessed when the select takes the done case. -/
theorem c8_stop_discipline (s : AggState) (h : AggReach aggInit s) (hs : s.stopped = true) :
    s.cancelled = true ∧
    ∀ t, AggStep s t → t.output = s.output ∧ t.stopped = true :=
  ⟨agg_stopped_cancelled s h hs, fun t hstep => agg_stopped_frozen s t hs hstep⟩

/-- C8 (witness): the amended theorem applied to the stopped state of
the counterexample run. -/
theorem c8_witness : aggDropped.cancelled = true :=
  (c8_stop_discipline aggDropped aggReach_dropped rfl).1

/-- C9: when exactly one of the certificate path and the key path is
non-empty, the certificate loader succeeds with the single zero-value
certificate and no error, exactly as in the both-empty case. -/
theorem c9_mismatched_pair (tlsCert tlsKey : String) (fs : FS)
    (h : (tlsCert = "" ∧ tlsKey ≠ "") ∨ (tlsCert ≠ "" ∧ tlsKey = "")) :
    loadCerts tlsCert tlsKey fs = Except.ok [{ keyPairId := none }] ∧
    loadCerts tlsCert tlsKey fs = loadCerts "" "" fs := by
  have hcond : ¬(tlsCert ≠ "" ∧ tlsKey ≠ "") := by
    rcases h with ⟨h1, h2⟩ | ⟨h1, h2⟩ <;> simp [h1, h2]
  unfold loadCerts
  rw [if_neg hcond]
  simp

/-- C9 (witness): a certificate path with no key path. -/
theorem c9_witness : loadCerts "cert.pem" "" fsCa = Except.ok [{ keyPairId := none }] :=
  (c9_mismatched_pair "cert.pem" "" fsCa (Or.inr ⟨by decide, rfl⟩)).1

/-- C10: a JSON or JSON-IETF variant whose payload is exactly the JSON
literal null decodes to the native nil with no error. -/
theorem c10_json_null :
    getValue (.jsonVal ("null".toList)) = Except.ok none ∧
    getValue (.jsonIetfVal ("null".toList)) = Except.ok none :=
  ⟨rfl, rfl⟩

end Gnmic
